import Mathlib

/-!
Shallow embedding of the stock-ledger reconciliation core of the
fullstack-salim inventory application.

The JavaScript source is embedded as follows:
* JS strings are `Str` (lists of characters); JS numbers are `JNum`,
  an integer together with a distinguished `nan` value.  The data
  model declares every stock and quantity an integer, and the code
  under study only ever adds, subtracts, clamps and compares, so the
  integers are closed under every operation it performs; a
  non-integer numeric input is representable only through its string
  form, which `strToNumber` conservatively sends to `NaN` — the same
  verdict `Number.isInteger` gives it, and the only test the code
  applies to it.
* Loosely typed JS values flowing through payloads are `JSVal`.
* The external database is a `Store` record holding the three logical
  tables `items`, `history`, `tasks`; each API function takes the store
  and returns `Except Err` of the updated store (throwing before a
  write is represented by returning an error with no store, matching
  the code paths in which validation precedes every write).
* ISO-8601 timestamps compare lexicographically in the same order as
  chronologically, so they are embedded as natural numbers.
-/

namespace FS

/-- JS strings, embedded as lists of characters. -/
abbrev Str := List Char

/-- Whitespace test used by `String.prototype.trim`. -/
def isWsChar (c : Char) : Bool :=
  c = ' ' || c = '\t' || c = '\n' || c = '\r'

/-- `s.trim()`: drop leading and trailing whitespace. -/
def trimStr (s : Str) : Str :=
  ((s.dropWhile isWsChar).reverse.dropWhile isWsChar).reverse

/-- `s.split(',')`.  Note `''.split(',')` is `['']` in JS. -/
def splitComma : Str → List Str
  | [] => [[]]
  | c :: cs =>
    if c = ',' then [] :: splitComma cs
    else
      match splitComma cs with
      | [] => [[c]]
      | p :: ps => (c :: p) :: ps

/-- `arr.join(',')`. -/
def joinComma : List Str → Str
  | [] => []
  | [x] => x
  | x :: xs => x ++ ',' :: joinComma xs

/-- `csvToArray` from the mobile API:
`value ? value.split(',').map(v => v.trim()).filter(Boolean) : []`.
The argument is `none` when the column is SQL `null`. -/
def csvToArray : Option Str → List Str
  | none => []
  | some s =>
    if s = [] then []
    else ((splitComma s).map trimStr).filter (fun x => x ≠ [])

/-- `arrayToCsv` from the mobile API: `arr.join(',')`. -/
def arrayToCsv (l : List Str) : Str := joinComma l

/-- A JS number: either a finite value (exact rational) or `NaN`. -/
inductive JNum where
  | num (q : ℤ)
  | nan
deriving DecidableEq, Repr

/-- JS addition (`NaN` propagates). -/
def jadd : JNum → JNum → JNum
  | .num a, .num b => .num (a + b)
  | _, _ => .nan

/-- JS subtraction (`NaN` propagates). -/
def jsub : JNum → JNum → JNum
  | .num a, .num b => .num (a - b)
  | _, _ => .nan

/-- JS `<` (false whenever `NaN` is involved). -/
def jlt : JNum → JNum → Bool
  | .num a, .num b => a < b
  | _, _ => false

/-- JS `>` (false whenever `NaN` is involved). -/
def jgt : JNum → JNum → Bool
  | .num a, .num b => b < a
  | _, _ => false

/-- `Math.max` (returns `NaN` if an argument is `NaN`). -/
def jmax : JNum → JNum → JNum
  | .num a, .num b => .num (max a b)
  | _, _ => .nan

/-- `Number.isInteger`.  Every finite value of the embedded (integer)
value space is an integer, so only `NaN` fails the check — which is
also where every non-integer numeric string is sent by `strToNumber`,
and the two fail `Number.isInteger` alike. -/
def jIsInt : JNum → Bool
  | .num _ => true
  | .nan => false

/-- A loosely typed JS value as it appears in request payloads. -/
inductive JSVal where
  | vnum (q : ℤ)
  | vnan
  | vstr (s : Str)
  | vnull
  | vundef
deriving DecidableEq, Repr

/-- JS truthiness. -/
def truthy : JSVal → Bool
  | .vnum q => q ≠ 0
  | .vnan => false
  | .vstr s => s ≠ []
  | .vnull => false
  | .vundef => false

/-- The JS `a || b` operator. -/
def jsOr (a b : JSVal) : JSVal := if truthy a then a else b

/-- Accumulator for a run of decimal digits. -/
def parseDigitsAux : List Char → Nat → Option Nat
  | [], acc => some acc
  | c :: cs, acc =>
    if '0' ≤ c ∧ c ≤ '9' then
      parseDigitsAux cs (acc * 10 + (c.toNat - '0'.toNat))
    else none

/-- Parse a non-empty all-digit string. -/
def parseDigits (l : List Char) : Option Nat :=
  if l = [] then none else parseDigitsAux l 0

/-- `Number(s)` on a string.  The empty (or all-whitespace) string
coerces to `0`; signed decimal-integer strings coerce to their value;
every other string is conservatively sent to `NaN` (fractional and
exponent literals are not distinguished from `NaN` here: the embedded
code only ever branches on `Number.isInteger`, order against another
number, or `NaN`-ness, and a non-integer parse fails those the same
way `NaN` does on the paths under study). -/
def strToNumber (s : Str) : JNum :=
  let t := trimStr s
  if t = [] then .num 0
  else
    match t with
    | '-' :: ds =>
      match parseDigits ds with
      | some n => .num (-(n : ℤ))
      | none => .nan
    | '+' :: ds =>
      match parseDigits ds with
      | some n => .num (n : ℤ)
      | none => .nan
    | ds =>
      match parseDigits ds with
      | some n => .num (n : ℤ)
      | none => .nan

/-- `Number(v)`. -/
def toNumber : JSVal → JNum
  | .vnum q => .num q
  | .vnan => .nan
  | .vnull => .num 0
  | .vundef => .nan
  | .vstr s => strToNumber s

/-- `String(v)`.  Number formatting is abstracted by the `ToString`
instance of `ℚ`; no code path under study stringifies a number. -/
def jsToString : JSVal → Str
  | .vstr s => s
  | .vnum q => (toString q).data
  | .vnan => "NaN".data
  | .vnull => "null".data
  | .vundef => "undefined".data

/-- Re-inject a JS number into a loosely typed value. -/
def jnumVal : JNum → JSVal
  | .num q => .vnum q
  | .nan => .vnan

/-! ## Data model (tables `items`, `history`, `tasks`) -/

/-- A row of the `items` table. -/
structure Item where
  id : Str
  name : Str
  stock : JNum
deriving DecidableEq, Repr

/-- A row of the `history` table.  `stock_before`/`stock_after` are
`none` when the inserting code supplied no value for the column. -/
structure HistoryRow where
  id : Nat
  employee_id : Str
  employee_name : Str
  item_id : Str
  item_name : Str
  action : Str
  qty : JNum
  stock_before : Option JNum
  stock_after : Option JNum
  timestamp : Nat
deriving DecidableEq, Repr

/-- The `deducted_by_list` column, which the code reads as either a
native array, a CSV string, or `null`. -/
inductive DeductedBy where
  | arr (l : List Str)
  | strv (s : Str)
  | nullv
deriving DecidableEq, Repr

/-- A row of the `tasks` table.  Membership sets are CSV strings. -/
structure Task where
  task_id : Str
  assigned_at : Nat
  read_by : Option Str
  checked_by : Option Str
  done_by : Option Str
  deducted_by_list : DeductedBy
  done_at : Option Nat
  status : Str
deriving DecidableEq, Repr

/-- The external database.  `nextId` generates history-row ids. -/
structure Store where
  items : List Item
  history : List HistoryRow
  tasks : List Task
  nextId : Nat
deriving DecidableEq, Repr

/-- Errors thrown by the embedded API functions. -/
inductive Err where
  /-- `new Error('INVALID_QTY')` -/
  | INVALID_QTY
  /-- `new Error('ACTION_EMPTY')` -/
  | ACTION_EMPTY
  /-- `new Error('Missing required fields for history')` -/
  | MISSING_FIELDS
  /-- a supabase `.single()` / store error surfaced to the caller -/
  | storeError
  /-- `new Error('Task cannot be marked as done. ...')` -/
  | taskCannotBeDone
  /-- `new Error('No items specified for deduction.')` -/
  | noItemsSpecified
  /-- `new Error('Task not found.')` -/
  | taskNotFound
  /-- `getItemById`: `new Error('Item ... not found')` -/
  | itemNotFound
deriving DecidableEq, Repr

/-- Frequently used string literals. -/
def deductS : Str := "deduct".data

def addS : Str := "add".data

def minS : Str := "min".data

def completedS : Str := "completed".data

/-! ## Web-admin API (`src/unnamed/part_000`) -/

/-- The payload accepted by `addHistory`. -/
structure AddHistoryPayload where
  item_id : JSVal
  action : JSVal
  qty : JSVal
  stock_before : JSVal
  stock_after : JSVal
  item_name : JSVal
  employee_id : JSVal
  employee_name : JSVal
deriving DecidableEq, Repr

/-- The logged-in user resolved from local storage by
`resolveCurrentUser` (both fields are always non-null strings). -/
structure CurrentUser where
  id : Str
  name : Str
deriving DecidableEq, Repr

/-- `addHistory(payload)` from the web-admin API.  `currentUser` is the
result of `resolveCurrentUser()`, `now` the insertion timestamp, and
the fresh row id is drawn from `st.nextId`.  Returns the updated store
together with the inserted row (the `.select()` result). -/
def addHistory (st : Store) (currentUser : Option CurrentUser) (now : Nat)
    (p : AddHistoryPayload) : Except Err (Store × HistoryRow) :=
  -- if (!payload.item_id || !payload.action || !payload.qty) throw
  if ¬ (truthy p.item_id ∧ truthy p.action ∧ truthy p.qty) then
    .error .MISSING_FIELDS
  else
    let stockBefore := toNumber (jsOr p.stock_before (.vnum 0))
    let stockAfter := toNumber (jsOr p.stock_after (.vnum 0))
    let finalQty :=
      if p.action = .vstr deductS then toNumber p.qty else stockAfter
    let finalAction :=
      if p.action ≠ .vstr deductS then
        if jgt stockAfter stockBefore then JSVal.vstr addS
        else if jlt stockAfter stockBefore then JSVal.vstr minS
        else p.action
      else p.action
    let row : HistoryRow :=
      { id := st.nextId
        employee_id :=
          jsToString (jsOr
            (match currentUser with
             | some u => .vstr u.id
             | none => p.employee_id)
            (.vstr "SYSTEM".data))
        employee_name :=
          jsToString (jsOr
            (match currentUser with
             | some u => .vstr u.name
             | none => p.employee_name)
            (.vstr "Unknown".data))
        item_id := jsToString p.item_id
        item_name := jsToString (jsOr p.item_name (.vstr "Unknown Item".data))
        action := jsToString finalAction
        qty := finalQty
        stock_before := some stockBefore
        stock_after := some stockAfter
        timestamp := now }
    .ok ({ st with history := st.history ++ [row], nextId := st.nextId + 1 },
         row)

/-- The payload accepted by `updateHistory`. -/
structure UpdateHistoryPayload where
  id : Nat
  qty : JSVal
  action : JSVal
  stock_after : JSVal
deriving DecidableEq, Repr

/-- The `action` string computed at the top of `updateHistory`:
`history.action !== null && history.action !== undefined
  ? String(history.action).trim() : ''`. -/
def updActionOf (h : UpdateHistoryPayload) : Str :=
  if h.action ≠ .vnull ∧ h.action ≠ .vundef then trimStr (jsToString h.action)
  else []

/-- `updateHistory(history)` from the web-admin API.  Validation runs
before any write; on success only `action` (and `stock_after`, when the
caller supplied one) of the matching rows are patched — the comment in
the source reads: only update stock_after, qty does not change in the
database. -/
def updateHistory (st : Store) (h : UpdateHistoryPayload) :
    Except Err Store :=
  let qty := toNumber h.qty
  let action := updActionOf h
  -- stockAfter is null exactly when the field was undefined
  let stockAfter : Option JNum :=
    if h.stock_after ≠ .vundef then some (toNumber h.stock_after) else none
  if ¬ jIsInt qty then .error .INVALID_QTY
  else if action = [] then .error .ACTION_EMPTY
  else
    .ok { st with
          history := st.history.map (fun r =>
            if r.id = h.id then
              { r with
                action := action
                stock_after :=
                  match stockAfter with
                  | some v => some v
                  | none => r.stock_after }
            else r) }

/-! ## Web-admin history edit flow
(`src/web-admin/src/pages/History.new.js`) -/

/-- The current item stock fetched by `handleEditClick`:
`items.find(item => item.id === entry.item_id)?.stock ?? 0`. -/
def fetchCurrentItemStock (st : Store) (itemId : Str) : JNum :=
  match st.items.find? (fun it => it.id = itemId) with
  | some it => it.stock
  | none => .num 0

/-- The effect of `updateItem({id, stock})` on the store (the update is
keyed on `id`; a `.single()` failure is caught by the page and only
surfaces an error banner, the write itself having matched whatever rows
exist). -/
def updateItemStockApply (st : Store) (itemId : Str) (stock : JNum) :
    Store :=
  { st with
    items := st.items.map (fun it =>
      if it.id = itemId then { it with stock := stock } else it) }

/-- `handleEditSubmit` from `History.new.js`: `editEntry` is the row
being edited, `formQty` the (string) form value, `formAction` the form
action (initialised by `handleEditClick` to `editEntry.action`).
For a `deduct` entry the page patches the history row (only `action`
reaches the database — `updateHistory` drops `qty`) and then writes
`currentItemStock + (oldQty - newQty)` back to the owning item; for
other entries it patches `action` and `stock_after := newValue` and
leaves the item untouched. -/
def handleEditSubmit (st : Store) (editEntry : HistoryRow)
    (formQty : JSVal) (formAction : Str) : Except Err Store :=
  let newValue := toNumber formQty
  if editEntry.action = deductS then
    match updateHistory st
        { id := editEntry.id, qty := jnumVal newValue,
          action := .vstr formAction, stock_after := .vundef } with
    | .error e => .error e
    | .ok st1 =>
      let qtyDifference := jsub editEntry.qty newValue
      let newItemStock :=
        jadd (fetchCurrentItemStock st editEntry.item_id) qtyDifference
      .ok (updateItemStockApply st1 editEntry.item_id newItemStock)
  else
    -- non-deduct branch: payload carries no qty field (undefined)
    updateHistory st
      { id := editEntry.id, qty := .vundef,
        action := .vstr formAction, stock_after := jnumVal newValue }

/-! ## Mobile API (`src/unnamed/part_002`) -/

/-- `supabase...eq(key, v).single()`: succeeds exactly when one row
matches. -/
def singleTask (st : Store) (taskId : Str) : Option Task :=
  match st.tasks.filter (fun t => t.task_id = taskId) with
  | [t] => some t
  | _ => none

/-- `getItemById` (`.single()`, throwing when not exactly one row). -/
def getItemById (st : Store) (itemId : Str) : Except Err Item :=
  match st.items.filter (fun it => it.id = itemId) with
  | [it] => .ok it
  | _ => .error .itemNotFound

/-- `addHistoryEntry` from the mobile API: inserts a history row with
only the seven listed columns — in particular `stock_before` and
`stock_after` are not part of the payload and stay `null`. -/
def addHistoryEntry (st : Store) (employee_id employee_name item_id
    item_name : Str) (qty : JNum) (action : Str) (timestamp : Nat) :
    Store :=
  let row : HistoryRow :=
    { id := st.nextId
      employee_id := employee_id
      employee_name := employee_name
      item_id := item_id
      item_name := item_name
      action := action
      qty := qty
      stock_before := none
      stock_after := none
      timestamp := timestamp }
  { st with history := st.history ++ [row], nextId := st.nextId + 1 }

/-- One entry of the `items` argument of `deductItem`. -/
structure DeductReq where
  itemId : Str
  qty : JNum
deriving DecidableEq, Repr

/-- The `for (const item of items)` loop body of `deductItem`. -/
def deductItemLoop (employeeId employeeName : Str) (now : Nat) :
    Store → List DeductReq → Except Err Store
  | st, [] => .ok st
  | st, r :: rest =>
    match getItemById st r.itemId with
    | .error e => .error e
    | .ok data =>
      -- const newStock = Math.max(data.stock - item.qty, 0)
      let newStock := jmax (jsub data.stock r.qty) (.num 0)
      let st1 :=
        { st with
          items := st.items.map (fun it =>
            if it.id = r.itemId then { it with stock := newStock } else it) }
      let st2 := addHistoryEntry st1 employeeId employeeName r.itemId
        data.name r.qty deductS now
      deductItemLoop employeeId employeeName now st2 rest

/-- `deductItem({employeeId, employeeName, items})`: the direct
deduction flow (stock clamped at zero, history entry, e-mail
notification — the e-mail is external and stateless here). -/
def deductItem (st : Store) (employeeId employeeName : Str) (now : Nat)
    (items : List DeductReq) : Except Err Store :=
  deductItemLoop employeeId employeeName now st items

/-- `canMarkTaskDone(taskId, employeeId)`: the employee must appear in
the CSV `checked_by` set and own a `deduct` history entry strictly
after the task `assigned_at`. -/
def canMarkTaskDone (st : Store) (taskId employeeId : Str) :
    Except Err Bool :=
  match singleTask st taskId with
  | none => .error .storeError
  | some task =>
    let checkedList := csvToArray task.checked_by
    let isChecked : Bool := employeeId ∈ checkedList
    let hasValidDeduct : Bool :=
      st.history.any (fun h =>
        h.employee_id = employeeId ∧ h.action = deductS ∧
          task.assigned_at < h.timestamp)
    .ok (isChecked && hasValidDeduct)

/-- `doneTask(taskId, employeeId)`: gate through `canMarkTaskDone`,
then append the employee to `done_by` when absent and set `done_at`
to the current time and `status` to `completed`. -/
def doneTask (st : Store) (taskId employeeId : Str) (now : Nat) :
    Except Err (Store × List Str) :=
  match canMarkTaskDone st taskId employeeId with
  | .error e => .error e
  | .ok false => .error .taskCannotBeDone
  | .ok true =>
    -- second select does not check its error: a failed single() leaves
    -- data null and csvToArray(data?.done_by) = []
    let list :=
      match singleTask st taskId with
      | some t => csvToArray t.done_by
      | none => csvToArray none
    let list' := if employeeId ∈ list then list else list ++ [employeeId]
    let st' :=
      { st with
        tasks := st.tasks.map (fun t =>
          if t.task_id = taskId then
            { t with
              done_by := some (arrayToCsv list')
              done_at := some now
              status := completedS }
          else t) }
    .ok (st', list')

/-- `updateTaskCheckStatus(taskId, employeeId)`: append the employee to
the CSV `checked_by` set when absent. -/
def updateTaskCheckStatus (st : Store) (taskId employeeId : Str) :
    Except Err Store :=
  match singleTask st taskId with
  | none => .error .storeError
  | some t =>
    let list := csvToArray t.checked_by
    let list' := if employeeId ∈ list then list else list ++ [employeeId]
    .ok { st with
          tasks := st.tasks.map (fun u =>
            if u.task_id = taskId then
              { u with checked_by := some (arrayToCsv list') }
            else u) }

/-- One entry of the `items` argument of `deductTaskItems`. -/
structure TaskItemReq where
  item_id : Str
  required_qty : JNum
deriving DecidableEq, Repr

/-- The `for (const item of items)` loop body of `deductTaskItems`.
The in-loop `.single()` ignores its error (`currentItemData` is then
null); the stock written is `(currentItemData?.stock || 0) -
item.required_qty` — with no clamping at zero. -/
def deductTaskItemsLoop (employeeId employeeName : Str) (now : Nat) :
    Store → List TaskItemReq → Store
  | st, [] => st
  | st, r :: rest =>
    let currentItemData : Option Item :=
      match st.items.filter (fun it => it.id = r.item_id) with
      | [it] => some it
      | _ => none
    -- (currentItemData?.stock || 0): NaN and a missing row both give 0
    let baseStock : JNum :=
      match currentItemData with
      | some it =>
        match it.stock with
        | .num q => .num q
        | .nan => .num 0
      | none => .num 0
    let newStock := jsub baseStock r.required_qty
    let st1 :=
      { st with
        items := st.items.map (fun it =>
          if it.id = r.item_id then { it with stock := newStock } else it) }
    let itemName :=
      match currentItemData with
      | some it => if it.name ≠ [] then it.name else "Unknown Item".data
      | none => "Unknown Item".data
    let st2 := addHistoryEntry st1 employeeId employeeName r.item_id
      itemName r.required_qty deductS now
    deductTaskItemsLoop employeeId employeeName now st2 rest

/-- `deductTaskItems({taskId, employeeId, employeeName, items})`: the
task-items deduction flow — per-item stock write (unclamped) plus
history entry, then the employee is appended to the task
`deducted_by_list`. -/
def deductTaskItems (st : Store) (taskId employeeId employeeName : Str)
    (now : Nat) (items : List TaskItemReq) :
    Except Err (Store × List Str) :=
  if items = [] then .error .noItemsSpecified
  else
    let st1 := deductTaskItemsLoop employeeId employeeName now st items
    match singleTask st1 taskId with
    | none => .error .taskNotFound
    | some taskData =>
      let deductedByList :=
        match taskData.deducted_by_list with
        | .arr l => l
        | .strv s => csvToArray (some s)
        | .nullv => csvToArray none
      let list' :=
        if employeeId ∈ deductedByList then deductedByList
        else deductedByList ++ [employeeId]
      let st2 :=
        { st1 with
          tasks := st1.tasks.map (fun t =>
            if t.task_id = taskId then
              { t with deducted_by_list := .arr list' }
            else t) }
      .ok (st2, list')

/-! ## Observers (used only to state properties) -/

/-- The result store of a successful call. -/
def resStore : Except Err Store → Option Store
  | .ok st => some st
  | .error _ => none

/-- The result store of a successful call returning a pair. -/
def resStoreP : Except Err (Store × List Str) → Option Store
  | .ok (st, _) => some st
  | .error _ => none

/-- The stock of the first item with the given id. -/
def itemStockOf (st : Store) (itemId : Str) : Option JNum :=
  (st.items.find? (fun it => it.id = itemId)).map (fun it => it.stock)

/-- The parsed `done_by` set of the task with the given id. -/
def taskDoneBy (st : Store) (taskId : Str) : List Str :=
  match singleTask st taskId with
  | some t => csvToArray t.done_by
  | none => []

/-- The parsed `checked_by` set of the task with the given id. -/
def taskCheckedBy (st : Store) (taskId : Str) : List Str :=
  match singleTask st taskId with
  | some t => csvToArray t.checked_by
  | none => []

/-- The `done_at` column of the task with the given id. -/
def taskDoneAt (st : Store) (taskId : Str) : Option Nat :=
  match singleTask st taskId with
  | some t => t.done_at
  | none => none

/-- The `status` column of the task with the given id. -/
def taskStatus (st : Store) (taskId : Str) : Option Str :=
  match singleTask st taskId with
  | some t => some t.status
  | none => none

/-- The inserted row of a successful `addHistory` call. -/
def resRow : Except Err (Store × HistoryRow) → Option HistoryRow
  | .ok (_, r) => some r
  | .error _ => none

/-! ## Well-formedness of employee identifiers and membership sets -/

/-- `l` has no whitespace first character. -/
def noLeadWs (l : Str) : Prop := ∀ c ∈ l.head?, isWsChar c = false

/-- A well-formed identifier as stored in a CSV membership set:
non-empty, comma-free and trimmed.  The identifiers generated by the
application (16 characters drawn from `[a-z0-9]`) satisfy this. -/
abbrev wfId (e : Str) : Prop := e ≠ [] ∧ ',' ∉ e ∧ trimStr e = e

/-- The parsed `checked_by` and `done_by` sets of every task are
duplicate-free. -/
abbrev TasksInv (st : Store) : Prop :=
  ∀ t ∈ st.tasks, (csvToArray t.checked_by).Nodup ∧
    (csvToArray t.done_by).Nodup

/-- Same task and membership sets only ever grow. -/
abbrev taskRel (t t' : Task) : Prop :=
  t.task_id = t'.task_id ∧
  (∀ x ∈ csvToArray t.checked_by, x ∈ csvToArray t'.checked_by) ∧
  (∀ x ∈ csvToArray t.done_by, x ∈ csvToArray t'.done_by)

/-- An employee-driven task membership operation. -/
inductive TaskOp where
  | check (taskId employeeId : Str)
  | markDone (taskId employeeId : Str) (now : Nat)
deriving DecidableEq, Repr

/-- Run one operation against the store; a thrown error leaves the
store as it was (the caller catches and reports it). -/
def applyTaskOp (st : Store) : TaskOp → Store
  | .check tid e =>
    match updateTaskCheckStatus st tid e with
    | .ok st' => st'
    | .error _ => st
  | .markDone tid e n =>
    match doneTask st tid e n with
    | .ok (st', _) => st'
    | .error _ => st

/-- Run a sequence of check/done operations. -/
def applyTaskOps (st : Store) (ops : List TaskOp) : Store :=
  ops.foldl applyTaskOp st

/-- The employee id used by an operation. -/
abbrev opWf : TaskOp → Prop
  | .check _ e => wfId e
  | .markDone _ e _ => wfId e

/-- The `done_by` list after `doneTask` pushes `e` when absent. -/
def doneByAfter (t : Task) (e : Str) : List Str :=
  if e ∈ csvToArray t.done_by then csvToArray t.done_by
  else csvToArray t.done_by ++ [e]

/-- The `checked_by` list after `updateTaskCheckStatus` pushes `e`
when absent. -/
def checkedByAfter (t : Task) (e : Str) : List Str :=
  if e ∈ csvToArray t.checked_by then csvToArray t.checked_by
  else csvToArray t.checked_by ++ [e]

/-- The store update performed by `doneTask` on the matching task. -/
def doneTaskUpdate (st : Store) (tid : Str) (db : Option Str)
    (dn : Option Nat) (stt : Str) : Store :=
  { st with tasks := st.tasks.map (fun u =>
      if u.task_id = tid then
        { u with done_by := db, done_at := dn, status := stt }
      else u) }

/-- The store update performed by `updateTaskCheckStatus` on the
matching task. -/
def checkTaskUpdate (st : Store) (tid : Str) (cb : Option Str) :
    Store :=
  { st with tasks := st.tasks.map (fun u =>
      if u.task_id = tid then { u with checked_by := cb } else u) }

/-- A task with its done fields replaced. -/
def taskDoneMark (t : Task) (db : Option Str) (dn : Option Nat)
    (stt : Str) : Task :=
  { t with done_by := db, done_at := dn, status := stt }

/-- A task with its checked_by field replaced. -/
def taskCheckMark (t : Task) (cb : Option Str) : Task :=
  { t with checked_by := cb }

/-! ## Concrete stores and payloads used by witnesses and
counterexamples -/

def c1st : Store := ⟨[], [], [], 0⟩

def c1p : AddHistoryPayload :=
  ⟨.vstr "I".data, .vstr minS, .vnum 1, .vnum 1, .vnum 2,
   .vstr "X".data, .vstr "E".data, .vstr "N".data⟩

def c1row : HistoryRow :=
  ⟨0, "E".data, "N".data, "I".data, "X".data, addS, .num 2,
   some (.num 1), some (.num 2), 7⟩

def c1st' : Store := ⟨[], [c1row], [], 1⟩

def c2st : Store := ⟨[], [], [], 0⟩

def c2p : AddHistoryPayload :=
  ⟨.vstr "I".data, .vstr addS, .vnum 3, .vnum 5, .vnum 8,
   .vstr "X".data, .vstr "E".data, .vstr "N".data⟩

def c2row : HistoryRow :=
  ⟨0, "E".data, "N".data, "I".data, "X".data, addS, .num 8,
   some (.num 5), some (.num 8), 0⟩

def c2st' : Store := ⟨[], [c2row], [], 1⟩

def c3entry : HistoryRow :=
  ⟨1, "E".data, "N".data, "I1".data, "X".data, deductS, .num 12,
   some (.num 50), some (.num 38), 3⟩

def c3st : Store := ⟨[⟨"I1".data, "X".data, .num 38⟩], [c3entry], [], 2⟩

def c4st : Store := ⟨[], [], [], 0⟩

/-- Insert payload with the non-integer qty `"abc"`. -/
def c4p : AddHistoryPayload :=
  ⟨.vstr "I".data, .vstr deductS, .vstr "abc".data, .vnum 5, .vnum 3,
   .vstr "X".data, .vstr "E".data, .vstr "N".data⟩

/-- Update payload with the non-integer qty `"abc"`. -/
def c4uh : UpdateHistoryPayload := ⟨0, .vstr "abc".data, .vstr "x".data, .vundef⟩

/-- Insert payload with an empty action. -/
def c4pm : AddHistoryPayload :=
  ⟨.vstr "I".data, .vstr [], .vnum 2, .vnum 5, .vnum 3,
   .vstr "X".data, .vstr "E".data, .vstr "N".data⟩

def c5hist : HistoryRow :=
  ⟨0, "E1".data, "N".data, "IT".data, "X".data, deductS, .num 2,
   none, none, 10⟩

def c5task : Task :=
  ⟨"T1".data, 5, none, some "E1".data, none, .nullv, none,
   "assigned".data⟩

def c5st : Store := ⟨[], [c5hist], [c5task], 1⟩

def c6hist : HistoryRow :=
  ⟨0, "E1".data, "N".data, "IT".data, "X".data, deductS, .num 2,
   none, none, 10⟩

/-- A task on which employee `E1` has already been marked done
(`done_at` 7). -/
def c6task : Task :=
  ⟨"T1".data, 5, none, some "E1".data, some "E1".data, .nullv,
   some 7, completedS⟩

def c6st : Store := ⟨[], [c6hist], [c6task], 1⟩

def c6task0 : Task :=
  ⟨"T1".data, 5, none, some "E1".data, none, .nullv, none,
   "assigned".data⟩

def c6st0 : Store := ⟨[], [c6hist], [c6task0], 1⟩

/-- The store after `doneTask c6st0 "T1" "E1" 20`. -/
def c6st1 : Store :=
  ⟨[], [c6hist],
   [⟨"T1".data, 5, none, some "E1".data, some "E1".data, .nullv,
     some 20, completedS⟩], 1⟩

def c7st : Store :=
  ⟨[⟨"I1".data, "X".data, .num 5⟩], [],
   [⟨"T1".data, 0, none, none, none, .nullv, none, "assigned".data⟩], 0⟩

def c7st2 : Store := ⟨[⟨"I2".data, "X".data, .num 5⟩], [], [], 0⟩

/-- The store after `deductItem c7st2 "E" "N" 1 [{I2, 9}]`: the stock
is clamped at zero. -/
def c7res : Store :=
  ⟨[⟨"I2".data, "X".data, .num 0⟩],
   [⟨0, "E".data, "N".data, "I2".data, "X".data, deductS, .num 9,
     none, none, 1⟩], [], 1⟩

def c8st : Store := ⟨[⟨"I1".data, "X".data, .num 50⟩], [], [], 0⟩

def c9st : Store :=
  ⟨[],
   [⟨0, "E1".data, "N".data, "I".data, "X".data, deductS, .num 1,
     none, none, 10⟩],
   [⟨"T1".data, 5, none, none, none, .nullv, none, "assigned".data⟩], 1⟩

def c9ops : List TaskOp :=
  [.check "T1".data "E1".data, .check "T1".data "E1".data,
   .markDone "T1".data "E1".data 20]

def c10st : Store :=
  ⟨[], [⟨3, "E".data, "N".data, "I".data, "X".data, addS, .num 4,
         some (.num 1), some (.num 5), 2⟩], [], 4⟩

/-- Update payload that also supplies a new qty (9), which the code
drops. -/
def c10p : UpdateHistoryPayload := ⟨3, .vnum 9, .vstr minS, .vnum 7⟩

def c10st' : Store :=
  ⟨[], [⟨3, "E".data, "N".data, "I".data, "X".data, minS, .num 4,
         some (.num 1), some (.num 7), 2⟩], [], 4⟩

/-! ## CSV membership-set machinery -/

theorem dropWhile_idem {α : Type} (p : α → Bool) (l : List α) :
    (l.dropWhile p).dropWhile p = l.dropWhile p := by
  induction l with
  | nil => rfl
  | cons a l ih =>
    by_cases h : p a
    · simp [List.dropWhile_cons, h, ih]
    · simp [List.dropWhile_cons, h]

theorem noLeadWs_dropWhile (l : Str) : noLeadWs (l.dropWhile isWsChar) := by
  induction l with
  | nil => intro c hc; simp at hc
  | cons a l ih =>
    by_cases h : isWsChar a
    · simpa [List.dropWhile_cons, h] using ih
    · intro c hc
      simp [List.dropWhile_cons, h] at hc
      subst hc
      simpa using h

theorem dropWhile_eq_self_of_noLead {l : Str} (h : noLeadWs l) :
    l.dropWhile isWsChar = l := by
  cases l with
  | nil => rfl
  | cons a l =>
    have ha := h a (by simp)
    simp [List.dropWhile_cons, ha]

theorem trimStr_eq_self {l : Str} (h1 : noLeadWs l)
    (h2 : noLeadWs l.reverse) : trimStr l = l := by
  unfold trimStr
  rw [dropWhile_eq_self_of_noLead h1, dropWhile_eq_self_of_noLead h2,
    List.reverse_reverse]

theorem noLeadWs_reverse_trim (l : Str) : noLeadWs (trimStr l).reverse := by
  unfold trimStr
  rw [List.reverse_reverse]
  exact noLeadWs_dropWhile _

theorem noLeadWs_trim (l : Str) : noLeadWs (trimStr l) := by
  unfold trimStr
  intro c hc
  rw [List.head?_reverse] at hc
  obtain ⟨t, ht⟩ :=
    @List.dropWhile_suffix Char ((l.dropWhile isWsChar).reverse) isWsChar
  have hED : ((l.dropWhile isWsChar).reverse).getLast? = some c := by
    rw [← ht, List.getLast?_append, hc]
    rfl
  rw [List.getLast?_reverse] at hED
  exact noLeadWs_dropWhile l c hED

theorem trimStr_idem (l : Str) : trimStr (trimStr l) = trimStr l :=
  trimStr_eq_self (noLeadWs_trim l) (noLeadWs_reverse_trim l)

theorem trimStr_sublist (l : Str) : (trimStr l).Sublist l := by
  unfold trimStr
  have h1 : (l.dropWhile isWsChar).Sublist l := List.dropWhile_sublist _
  have h2 :
      (((l.dropWhile isWsChar).reverse.dropWhile isWsChar)).Sublist
        (l.dropWhile isWsChar).reverse := List.dropWhile_sublist _
  have h3 := h2.reverse
  rw [List.reverse_reverse] at h3
  exact h3.trans h1

theorem splitComma_ne_nil (s : Str) : splitComma s ≠ [] := by
  induction s with
  | nil => simp [splitComma]
  | cons c cs ih =>
    simp only [splitComma]
    split
    · simp
    · split <;> simp

theorem mem_splitComma_not_comma {s p : Str} (hp : p ∈ splitComma s) :
    ',' ∉ p := by
  induction s generalizing p with
  | nil =>
    simp [splitComma] at hp
    subst hp
    simp
  | cons c cs ih =>
    simp only [splitComma] at hp
    by_cases hc : c = ','
    · rw [if_pos hc] at hp
      rcases List.mem_cons.mp hp with h | h
      · subst h; simp
      · exact ih h
    · rw [if_neg hc] at hp
      cases hsp : splitComma cs with
      | nil => exact absurd hsp (splitComma_ne_nil cs)
      | cons q qs =>
        rw [hsp] at hp
        rcases List.mem_cons.mp hp with h | h
        · subst h
          intro hmem
          rcases List.mem_cons.mp hmem with h2 | h2
          · exact hc h2.symm
          · exact ih (hsp ▸ List.mem_cons_self q qs) h2
        · exact ih (hsp ▸ List.mem_cons_of_mem q h)

theorem splitComma_of_not_comma {a : Str} (h : ',' ∉ a) :
    splitComma a = [a] := by
  induction a with
  | nil => rfl
  | cons c cs ih =>
    have hc : ¬ c = ',' := fun e => h (by simp [e])
    have hcs : ',' ∉ cs := fun m => h (List.mem_cons_of_mem _ m)
    simp only [splitComma, if_neg hc, ih hcs]

theorem splitComma_append {a r : Str} (h : ',' ∉ a) :
    splitComma (a ++ ',' :: r) = a :: splitComma r := by
  induction a with
  | nil => simp [splitComma]
  | cons c cs ih =>
    have hc : ¬ c = ',' := fun e => h (by simp [e])
    have hcs : ',' ∉ cs := fun m => h (List.mem_cons_of_mem _ m)
    simp only [List.cons_append, splitComma, if_neg hc, List.append_eq,
      ih hcs]

theorem joinComma_ne_nil {l : List Str} (h0 : l ≠ [])
    (h : ∀ x ∈ l, x ≠ []) : joinComma l ≠ [] := by
  cases l with
  | nil => exact absurd rfl h0
  | cons x xs =>
    cases xs with
    | nil => simpa [joinComma] using h x (by simp)
    | cons y ys => simp [joinComma]

theorem splitComma_joinComma {l : List Str} (h0 : l ≠ [])
    (h : ∀ x ∈ l, ',' ∉ x) : splitComma (joinComma l) = l := by
  induction l with
  | nil => exact absurd rfl h0
  | cons x xs ih =>
    cases xs with
    | nil => simp [joinComma, splitComma_of_not_comma (h x (by simp))]
    | cons y ys =>
      have hj : joinComma (x :: y :: ys) = x ++ ',' :: joinComma (y :: ys) :=
        rfl
      rw [hj, splitComma_append (h x (by simp)),
        ih (by simp) (fun z hz => h z (List.mem_cons_of_mem _ hz))]

theorem csvToArray_wf {v : Option Str} : ∀ x ∈ csvToArray v, wfId x := by
  intro x hx
  cases v with
  | none => simp [csvToArray] at hx
  | some s =>
    by_cases hs : s = []
    · simp [csvToArray, hs] at hx
    · simp only [csvToArray, if_neg hs] at hx
      rw [List.mem_filter] at hx
      obtain ⟨hmem, hne⟩ := hx
      rw [List.mem_map] at hmem
      obtain ⟨y, hy, rfl⟩ := hmem
      refine ⟨by simpa using hne, ?_, trimStr_idem y⟩
      intro hcm
      exact mem_splitComma_not_comma hy ((trimStr_sublist y).subset hcm)

theorem map_trim_of_wf {m : List Str} (hm : ∀ x ∈ m, trimStr x = x) :
    m.map trimStr = m := by
  induction m with
  | nil => rfl
  | cons a t ih =>
    simp [hm a (by simp), ih (fun z hz => hm z (List.mem_cons_of_mem _ hz))]

theorem filter_ne_nil_of_wf {m : List Str} (hm : ∀ x ∈ m, x ≠ []) :
    m.filter (fun x => x ≠ []) = m := by
  induction m with
  | nil => rfl
  | cons a t ih =>
    rw [List.filter_cons_of_pos (by simpa using hm a (by simp))]
    rw [ih (fun z hz => hm z (List.mem_cons_of_mem _ hz))]

theorem csvToArray_arrayToCsv {l : List Str} (h : ∀ x ∈ l, wfId x) :
    csvToArray (some (arrayToCsv l)) = l := by
  cases hl : l with
  | nil => simp [csvToArray, arrayToCsv, joinComma]
  | cons x xs =>
    rw [← hl]
    have hl0 : l ≠ [] := by simp [hl]
    have hne : joinComma l ≠ [] :=
      joinComma_ne_nil hl0 (fun x hx => (h x hx).1)
    simp only [csvToArray, arrayToCsv]
    rw [if_neg hne]
    rw [splitComma_joinComma hl0 (fun x hx => (h x hx).2.1)]
    rw [map_trim_of_wf (fun x hx => (h x hx).2.2)]
    exact filter_ne_nil_of_wf (fun x hx => (h x hx).1)

/-! ## Store and filter helper lemmas -/

theorem find?_of_filter_singleton {α : Type} {l : List α} {p : α → Bool}
    {x : α} (h : l.filter p = [x]) : l.find? p = some x := by
  induction l with
  | nil => simp at h
  | cons a t ih =>
    by_cases ha : p a
    · rw [List.filter_cons_of_pos ha] at h
      rw [List.find?_cons_of_pos _ ha]
      exact congrArg some (List.cons.injEq .. |>.mp h).1
    · rw [List.filter_cons_of_neg ha] at h
      rw [List.find?_cons_of_neg _ ha]
      exact ih h

theorem filter_map_pres {α : Type} (l : List α) (p : α → Bool)
    (f : α → α) (hf : ∀ x, p (f x) = p x) :
    (l.map f).filter p = (l.filter p).map f := by
  induction l with
  | nil => rfl
  | cons a t ih =>
    by_cases h : p a
    · rw [List.map_cons, List.filter_cons_of_pos (by rw [hf]; exact h),
        List.filter_cons_of_pos h, List.map_cons, ih]
    · rw [List.map_cons, List.filter_cons_of_neg (by rw [hf]; exact h),
        List.filter_cons_of_neg h, ih]

theorem eq_of_filter_singleton {α : Type} {l : List α} {p : α → Bool}
    {x u : α} (h : l.filter p = [x]) (hu : u ∈ l) (hpu : p u = true) :
    u = x := by
  have : u ∈ l.filter p := List.mem_filter.mpr ⟨hu, hpu⟩
  rw [h] at this
  simpa using this

theorem mem_of_filter_singleton {α : Type} {l : List α} {p : α → Bool}
    {x : α} (h : l.filter p = [x]) : x ∈ l :=
  List.mem_of_mem_filter (h ▸ List.mem_cons_self x [])

theorem getItemById_eq_filter {st : Store} {iid : Str} {it : Item}
    (h : getItemById st iid = .ok it) :
    st.items.filter (fun i => i.id = iid) = [it] := by
  unfold getItemById at h
  cases hf : st.items.filter (fun i => i.id = iid) with
  | nil => rw [hf] at h; exact Except.noConfusion h
  | cons a t =>
    cases t with
    | nil =>
      rw [hf] at h
      injection h with h1
      rw [h1]
    | cons b t2 => rw [hf] at h; exact Except.noConfusion h

theorem getItemById_mem {st : Store} {iid : Str} {it : Item}
    (h : getItemById st iid = .ok it) : it ∈ st.items :=
  mem_of_filter_singleton (getItemById_eq_filter h)

theorem singleTask_eq_filter {st : Store} {tid : Str} {t : Task}
    (ht : singleTask st tid = some t) :
    st.tasks.filter (fun u => u.task_id = tid) = [t] := by
  unfold singleTask at ht
  cases hf : st.tasks.filter (fun u => u.task_id = tid) with
  | nil => rw [hf] at ht; exact Option.noConfusion ht
  | cons a l =>
    cases l with
    | nil =>
      rw [hf] at ht
      injection ht with h1
      rw [h1]
    | cons b l2 => rw [hf] at ht; exact Option.noConfusion ht

theorem singleTask_of_filter {st : Store} {tid : Str} {t : Task}
    (h : st.tasks.filter (fun u => u.task_id = tid) = [t]) :
    singleTask st tid = some t := by
  unfold singleTask
  rw [h]

theorem singleTask_mem {st : Store} {tid : Str} {t : Task}
    (ht : singleTask st tid = some t) : t ∈ st.tasks :=
  mem_of_filter_singleton (singleTask_eq_filter ht)

theorem singleTask_map {st : Store} {tid : Str} {t : Task} (f : Task → Task)
    (hf : ∀ u, (f u).task_id = u.task_id)
    (ht : singleTask st tid = some t) :
    singleTask { st with tasks := st.tasks.map f } tid = some (f t) := by
  apply singleTask_of_filter
  show (st.tasks.map f).filter (fun u => u.task_id = tid) = [f t]
  rw [filter_map_pres _ _ _ (fun u => by simp [hf u]),
    singleTask_eq_filter ht]
  rfl

/-! ## Inversion of `addHistory` -/

/-- The fields of a successfully inserted history row, as computed by
`addHistory`. -/
theorem addHistory_row {st : Store} {cu : Option CurrentUser} {now : Nat}
    {p : AddHistoryPayload} {st' : Store} {row : HistoryRow}
    (hok : addHistory st cu now p = .ok (st', row)) :
    row.action =
      jsToString
        (if p.action ≠ .vstr deductS then
          if jgt (toNumber (jsOr p.stock_after (.vnum 0)))
              (toNumber (jsOr p.stock_before (.vnum 0))) then JSVal.vstr addS
          else if jlt (toNumber (jsOr p.stock_after (.vnum 0)))
              (toNumber (jsOr p.stock_before (.vnum 0))) then JSVal.vstr minS
          else p.action
        else p.action) ∧
    row.qty =
      (if p.action = .vstr deductS then toNumber p.qty
       else toNumber (jsOr p.stock_after (.vnum 0))) ∧
    row.stock_before = some (toNumber (jsOr p.stock_before (.vnum 0))) ∧
    row.stock_after = some (toNumber (jsOr p.stock_after (.vnum 0))) ∧
    st'.history = st.history ++ [row] := by
  simp only [addHistory] at hok
  split at hok
  · exact Except.noConfusion hok
  · injection hok with h1
    obtain ⟨h2, h3⟩ := Prod.mk.injEq .. |>.mp h1
    subst h3
    subst h2
    exact ⟨rfl, rfl, rfl, rfl, rfl⟩

/-! ## C1: action classification on history insertion -/

/-- C1.  On every successful history insertion: a requested `deduct`
is recorded as `deduct`; otherwise the recorded action is `add` when
`stock_after > stock_before`, `min` when `stock_after < stock_before`,
and the requested action when they are equal. -/
theorem addHistory_classifies (st : Store) (cu : Option CurrentUser)
    (now : Nat) (p : AddHistoryPayload) (st' : Store) (row : HistoryRow)
    (s : Str) (b a : ℤ)
    (hok : addHistory st cu now p = .ok (st', row))
    (hact : p.action = .vstr s)
    (hb : toNumber (jsOr p.stock_before (.vnum 0)) = .num b)
    (ha : toNumber (jsOr p.stock_after (.vnum 0)) = .num a) :
    (s = deductS → row.action = deductS) ∧
    (s ≠ deductS →
      (b < a → row.action = addS) ∧
      (a < b → row.action = minS) ∧
      (a = b → row.action = s)) := by
  obtain ⟨hA, -, -, -, -⟩ := addHistory_row hok
  rw [hact, hb, ha] at hA
  constructor
  · intro hs
    subst hs
    rw [hA]
    simp [jsToString]
  · intro hs
    rw [hA, if_pos (by simpa using fun h => hs (JSVal.vstr.injEq .. |>.mp h))]
    refine ⟨?_, ?_, ?_⟩
    · intro hba
      rw [if_pos (by simpa [jgt] using hba)]
      rfl
    · intro hab
      rw [if_neg (by simp [jgt]; exact le_of_lt hab),
        if_pos (by simpa [jlt] using hab)]
      rfl
    · intro hab
      subst hab
      rw [if_neg (by simp [jgt]), if_neg (by simp [jlt])]
      simp [jsToString]

/-- C1 witness: inserting with requested action `min`,
`stock_before = 1`, `stock_after = 2` records action `add`. -/
theorem addHistory_classifies_witness : c1row.action = addS :=
  ((addHistory_classifies c1st none 7 c1p c1st' c1row minS 1 2 rfl rfl
      rfl rfl).2 (by decide)).1 (by norm_num)

/-! ## C2: qty recorded on history insertion -/

/-- C2 counterexample: inserting with requested action `add`,
`stock_before = 5`, `stock_after = 8` and requested qty 3 records
`qty = 8` (the raw `stock_after`), not `|stock_after − stock_before|
= 3` as the claim states. -/
theorem addHistory_qty_counterexample :
    (resRow (addHistory c2st none 0 c2p)).map
        (fun r => (r.action, r.qty)) = some (addS, .num 8) ∧
      JNum.num 8 ≠ JNum.num (|(8 : ℤ) - 5|) := by
  constructor
  · rfl
  · simp only [ne_eq, JNum.num.injEq]
    norm_num

/-- C2 as amended.  On every successful insertion the recorded qty is
the requested qty for a requested `deduct`, and otherwise the raw
`Number(stock_after || 0)` — not the absolute difference of the stock
snapshots. -/
theorem addHistory_qty (st : Store) (cu : Option CurrentUser) (now : Nat)
    (p : AddHistoryPayload) (st' : Store) (row : HistoryRow)
    (hok : addHistory st cu now p = .ok (st', row)) :
    row.qty =
      (if p.action = .vstr deductS then toNumber p.qty
       else toNumber (jsOr p.stock_after (.vnum 0))) :=
  (addHistory_row hok).2.1

/-- C2 witness at a concrete insertion. -/
theorem addHistory_qty_witness : c2row.qty = .num 8 := by
  rw [addHistory_qty c2st none 0 c2p c2st' c2row rfl]
  decide

/-! ## C4: validation of history mutations -/

/-- C4 counterexample: an insert whose qty is the non-integer string
`"abc"` is not rejected — `addHistory` succeeds and writes a history
row whose qty is `NaN`. -/
theorem addHistory_invalid_qty_counterexample :
    (resRow (addHistory c4st none 0 c4p)).map (fun r => r.qty) =
        some .nan ∧
      (resStore ((addHistory c4st none 0 c4p).map Prod.fst)).isSome =
        true := by
  constructor
  · rfl
  · rfl

/-- C4 as amended.  `updateHistory` rejects a non-integer qty with
`INVALID_QTY` and an empty or missing action with `ACTION_EMPTY`,
in both cases before any store write; `addHistory` only checks the
presence of `item_id`/`action`/`qty` (rejecting with
`MISSING_FIELDS`) and never performs the integer check — a present
non-integer qty is inserted. -/
theorem historyMutationValidation (st st₂ : Store)
    (h : UpdateHistoryPayload) (cu : Option CurrentUser) (now : Nat)
    (p : AddHistoryPayload) :
    (jIsInt (toNumber h.qty) = false →
      updateHistory st h = .error .INVALID_QTY) ∧
    (jIsInt (toNumber h.qty) = true → updActionOf h = [] →
      updateHistory st h = .error .ACTION_EMPTY) ∧
    (truthy p.item_id = true ∧ truthy p.action = true ∧
        truthy p.qty = true →
      ∃ st' row, addHistory st₂ cu now p = .ok (st', row) ∧
        st'.history = st₂.history ++ [row]) ∧
    (¬ (truthy p.item_id = true ∧ truthy p.action = true ∧
        truthy p.qty = true) →
      addHistory st₂ cu now p = .error .MISSING_FIELDS) := by
  refine ⟨?_, ?_, ?_, ?_⟩
  · intro hq
    simp only [updateHistory]
    rw [if_pos (by simp [hq])]
  · intro hq ha
    simp only [updateHistory]
    rw [if_neg (by simp [hq]), if_pos ha]
  · intro htr
    simp only [addHistory, if_neg (not_not_intro htr)]
    exact ⟨_, _, rfl, rfl⟩
  · intro hn
    simp only [addHistory]
    rw [if_pos hn]

/-- C4 witness: a concrete non-integer update payload is rejected with
`INVALID_QTY`, and a concrete insert payload with an empty action is
rejected with `MISSING_FIELDS` (not `ACTION_EMPTY`). -/
theorem historyMutationValidation_witness :
    updateHistory c4st c4uh = .error .INVALID_QTY ∧
      addHistory c4st none 0 c4pm = .error .MISSING_FIELDS :=
  ⟨(historyMutationValidation c4st c4st c4uh none 0 c4pm).1 (by decide),
   (historyMutationValidation c4st c4st c4uh none 0 c4pm).2.2.2
     (by decide)⟩

/-! ## C10: frame of `updateHistory` -/

/-- C10.  `updateHistory` changes at most the `action` and
`stock_after` fields of the targeted row: every row keeps its id, qty,
stock_before, item_id, employee ids/names, item_name and timestamp,
rows with a different id are untouched, and the `items` and `tasks`
tables are untouched — even when the payload carries a new qty. -/
theorem updateHistory_frame (st : Store) (h : UpdateHistoryPayload)
    (st' : Store) (hok : updateHistory st h = .ok st') :
    List.Forall₂ (fun r r' : HistoryRow =>
      r.id = r'.id ∧ r.qty = r'.qty ∧ r.stock_before = r'.stock_before ∧
      r.item_id = r'.item_id ∧ r.employee_id = r'.employee_id ∧
      r.employee_name = r'.employee_name ∧ r.item_name = r'.item_name ∧
      r.timestamp = r'.timestamp ∧ (r.id ≠ h.id → r = r'))
      st.history st'.history ∧
    st'.items = st.items ∧ st'.tasks = st.tasks := by
  simp only [updateHistory] at hok
  split at hok
  · exact Except.noConfusion hok
  · split at hok
    · exact Except.noConfusion hok
    · injection hok with h1
      subst h1
      refine ⟨?_, rfl, rfl⟩
      rw [List.forall₂_map_right_iff, List.forall₂_same]
      intro r _
      by_cases hid : r.id = h.id
      · simp [hid]
      · simp [hid]

/-- C10 witness: a concrete update that supplies a new qty (9) and a
new stock_after (7) leaves qty at 4 and changes only action and
stock_after. -/
theorem updateHistory_frame_witness :
    List.Forall₂ (fun r r' : HistoryRow =>
      r.id = r'.id ∧ r.qty = r'.qty ∧ r.stock_before = r'.stock_before ∧
      r.item_id = r'.item_id ∧ r.employee_id = r'.employee_id ∧
      r.employee_name = r'.employee_name ∧ r.item_name = r'.item_name ∧
      r.timestamp = r'.timestamp ∧ (r.id ≠ c10p.id → r = r'))
      c10st.history c10st'.history ∧
    c10st'.items = c10st.items ∧ c10st'.tasks = c10st.tasks :=
  updateHistory_frame c10st c10p c10st' (by rfl)

/-! ## C3: editing a deduct history entry -/

/-- C3 counterexample: editing the qty of a deduct entry from 12 to 20
on an item at stock 38 updates the item stock to `38 + (12 - 20) = 30`
as claimed, but the stored qty of the entry remains 12 — it does not
become 20. -/
theorem editDeduct_qty_counterexample :
    (resStore (handleEditSubmit c3st c3entry (.vnum 20) deductS)).map
        (fun s => (s.history.map fun r => r.qty,
          s.items.map fun i => i.stock)) =
      some ([.num 12], [.num 30]) ∧
    JNum.num 12 ≠ JNum.num 20 := by
  constructor
  · decide
  · decide

/-- C3 as amended.  Editing a deduct entry from `oldQty` to an integer
`newQty` succeeds, updates the owning item stock to
`currentStock + (oldQty - newQty)`, and patches the action of the
targeted row — but every row keeps its stored qty (`updateHistory`
drops the qty field), so the entry's qty does not become `newQty`. -/
theorem handleEditSubmit_deduct (st : Store) (e : HistoryRow)
    (fq : JSVal) (fa : Str) (it : Item) (s oq nq : ℤ)
    (hact : e.action = deductS)
    (hfa : trimStr fa ≠ [])
    (hnq : toNumber fq = .num nq)
    (hit : st.items.filter (fun i => i.id = e.item_id) = [it])
    (hS : it.stock = .num s)
    (hoq : e.qty = .num oq) :
    ∃ st', handleEditSubmit st e fq fa = .ok st' ∧
      (∀ j ∈ st'.items, j.id = e.item_id →
        j.stock = .num (s + (oq - nq))) ∧
      st'.history.map (fun r => (r.id, r.qty)) =
        st.history.map (fun r => (r.id, r.qty)) ∧
      (∀ r ∈ st'.history, r.id = e.id → r.action = trimStr fa) := by
  have h1 : ¬ ¬ (jIsInt (toNumber (jnumVal (toNumber fq))) = true) := by
    rw [hnq]
    simp [jnumVal, toNumber, jIsInt]
  have h2 : ¬ (updActionOf
      { id := e.id, qty := jnumVal (toNumber fq),
        action := .vstr fa, stock_after := .vundef } = ([] : Str)) := by
    simpa [updActionOf, jsToString] using hfa
  have hu : updateHistory st
      { id := e.id, qty := jnumVal (toNumber fq),
        action := .vstr fa, stock_after := .vundef } =
      .ok { st with history := st.history.map (fun r =>
        if r.id = e.id then
          { r with action := trimStr fa, stock_after := r.stock_after }
        else r) } := by
    simp only [updateHistory]
    rw [if_neg h1, if_neg h2]
    rfl
  have hNS : jadd (fetchCurrentItemStock st e.item_id)
      (jsub e.qty (toNumber fq)) = .num (s + (oq - nq)) := by
    simp only [fetchCurrentItemStock]
    rw [find?_of_filter_singleton hit]
    show jadd it.stock (jsub e.qty (toNumber fq)) = _
    rw [hS, hoq, hnq]
    rfl
  refine ⟨updateItemStockApply
      { st with history := st.history.map (fun r =>
          if r.id = e.id then
            { r with action := trimStr fa, stock_after := r.stock_after }
          else r) }
      e.item_id
      (jadd (fetchCurrentItemStock st e.item_id)
        (jsub e.qty (toNumber fq))), ?_, ?_, ?_, ?_⟩
  · simp only [handleEditSubmit]
    rw [if_pos hact, hu]
  · intro j hj hid
    simp only [updateItemStockApply] at hj
    obtain ⟨i0, hi0, rfl⟩ := List.mem_map.mp hj
    by_cases h : i0.id = e.item_id
    · simp only [if_pos h]
      exact hNS
    · simp only [if_neg h] at hid
      exact absurd hid h
  · show ((st.history.map (fun r =>
        if r.id = e.id then
          { r with action := trimStr fa, stock_after := r.stock_after }
        else r)).map (fun r => (r.id, r.qty))) =
      st.history.map (fun r => (r.id, r.qty))
    rw [List.map_map]
    apply List.map_congr_left
    intro r _
    by_cases h : r.id = e.id
    · simp [h]
    · simp [h]
  · intro r hr hid
    have hr' : r ∈ st.history.map (fun r =>
        if r.id = e.id then
          { r with action := trimStr fa, stock_after := r.stock_after }
        else r) := hr
    obtain ⟨r0, hr0, rfl⟩ := List.mem_map.mp hr'
    by_cases h : r0.id = e.id
    · simp only [if_pos h]
    · simp only [if_neg h] at hid
      exact absurd hid h

/-- C3 witness at the concrete store: stock 38, deduct entry qty 12,
edited to 20. -/
theorem handleEditSubmit_deduct_witness :
    ∃ st', handleEditSubmit c3st c3entry (.vnum 20) deductS = .ok st' ∧
      (∀ j ∈ st'.items, j.id = c3entry.item_id →
        j.stock = .num (38 + (12 - 20))) ∧
      st'.history.map (fun r => (r.id, r.qty)) =
        c3st.history.map (fun r => (r.id, r.qty)) ∧
      (∀ r ∈ st'.history, r.id = c3entry.id →
        r.action = trimStr deductS) :=
  handleEditSubmit_deduct c3st c3entry (.vnum 20) deductS
    ⟨"I1".data, "X".data, .num 38⟩ 38 12 20 rfl (by decide) rfl
    rfl rfl rfl

/-! ## C8: effect of the direct deduction flow -/

/-- C8 counterexample: deducting 12 from an item at stock 50 leaves the
stock at 38 and records a deduct entry with qty 12 — but the written
history entry carries no `stock_before`/`stock_after` values at all
(the mobile `addHistoryEntry` payload has no such columns, so they
stay null), not `stock_before = 50` and `stock_after = 38` as the
claim states. -/
theorem deductItem_history_counterexample :
    (resStore (deductItem c8st "E1".data "N".data 4
        [⟨"I1".data, .num 12⟩])).map
        (fun st => (st.items.map fun i => i.stock,
          st.history.map fun r =>
            (r.action, r.qty, r.stock_before, r.stock_after))) =
      some ([.num 38], [(deductS, .num 12, none, none)]) ∧
    (none : Option JNum) ≠ some (.num 50) := by
  constructor
  · rfl
  · decide

/-- C8 as amended.  Deducting `q` from an item at stock `s` sets the
stock to `max (s - q) 0` (clamped, not plain `s - q`) and appends a
history row with action `deduct` and qty `q` whose
`stock_before`/`stock_after` columns are null. -/
theorem deductItem_effect (st : Store) (eid en iid : Str) (now : Nat)
    (it : Item) (s q : ℤ)
    (hit : st.items.filter (fun i => i.id = iid) = [it])
    (hS : it.stock = .num s) :
    ∃ st', deductItem st eid en now [⟨iid, .num q⟩] = .ok st' ∧
      (∀ i ∈ st'.items, i.id = iid → i.stock = .num (max (s - q) 0)) ∧
      st'.history = st.history ++
        [{ id := st.nextId, employee_id := eid, employee_name := en,
           item_id := iid, item_name := it.name, action := deductS,
           qty := .num q, stock_before := none, stock_after := none,
           timestamp := now }] := by
  have hgi : getItemById st iid = .ok it := by
    simp only [getItemById]
    rw [hit]
  have hmax : jmax (jsub it.stock (.num q)) (.num 0) =
      .num (max (s - q) 0) := by
    rw [hS]
    rfl
  refine ⟨⟨st.items.map (fun i =>
        if i.id = iid then
          { i with stock := jmax (jsub it.stock (.num q)) (.num 0) }
        else i),
      st.history ++
        [⟨st.nextId, eid, en, iid, it.name, deductS, .num q, none, none,
          now⟩],
      st.tasks, st.nextId + 1⟩, ?_, ?_, ?_⟩
  · simp only [deductItem, deductItemLoop]
    rw [hgi]
    rfl
  · intro i hi hid
    obtain ⟨i0, hi0, rfl⟩ := List.mem_map.mp hi
    by_cases h : i0.id = iid
    · simp only [if_pos h]
      exact hmax
    · simp only [if_neg h] at hid
      exact absurd hid h
  · rfl

/-- C8 witness at the concrete store: stock 50, deduct qty 12. -/
theorem deductItem_effect_witness :
    ∃ st', deductItem c8st "E1".data "N".data 4
        [⟨"I1".data, .num 12⟩] = .ok st' ∧
      (∀ i ∈ st'.items, i.id = "I1".data →
        i.stock = .num (max (50 - 12) 0)) ∧
      st'.history = c8st.history ++
        [{ id := c8st.nextId, employee_id := "E1".data,
           employee_name := "N".data, item_id := "I1".data,
           item_name := "X".data, action := deductS, qty := .num 12,
           stock_before := none, stock_after := none,
           timestamp := 4 }] :=
  deductItem_effect c8st "E1".data "N".data "I1".data 4
    ⟨"I1".data, "X".data, .num 50⟩ 50 12 rfl rfl

/-! ## C7: clamping of insert-time deductions -/

/-- C7 counterexample: the task-items deduction flow does not clamp —
deducting a required qty of 10 from an item at stock 5 drives the
stored stock to −5. -/
theorem deductTaskItems_negative_stock :
    (resStoreP (deductTaskItems c7st "T1".data "E1".data "N".data 3
        [⟨"I1".data, .num 10⟩])).bind
        (fun st => itemStockOf st "I1".data) = some (.num (-5)) ∧
    ¬ ((0 : ℤ) ≤ -5) := by
  constructor
  · decide
  · decide

/-- Stock non-negativity is preserved by the `deductItem` loop: every
written stock is `Math.max(stock - qty, 0)`. -/
theorem deductItemLoop_nonneg (eid en : Str) (now : Nat) :
    ∀ (reqs : List DeductReq) (st st' : Store),
      deductItemLoop eid en now st reqs = .ok st' →
      (∀ i ∈ st.items, ∃ x : ℤ, i.stock = .num x ∧ 0 ≤ x) →
      (∀ r ∈ reqs, ∃ x : ℤ, r.qty = .num x) →
      ∀ i ∈ st'.items, ∃ x : ℤ, i.stock = .num x ∧ 0 ≤ x := by
  intro reqs
  induction reqs with
  | nil =>
    intro st st' hok hst _
    simp only [deductItemLoop] at hok
    injection hok with h
    subst h
    exact hst
  | cons r rest ih =>
    intro st st' hok hst hq
    simp only [deductItemLoop] at hok
    cases hgi : getItemById st r.itemId with
    | error e =>
      rw [hgi] at hok
      exact Except.noConfusion hok
    | ok data =>
      rw [hgi] at hok
      refine ih _ st' hok ?_
        (fun r' hr' => hq r' (List.mem_cons_of_mem _ hr'))
      intro j hj
      have hj' : j ∈ st.items.map (fun i =>
          if i.id = r.itemId then
            { i with stock := jmax (jsub data.stock r.qty) (.num 0) }
          else i) := hj
      obtain ⟨i0, hi0, rfl⟩ := List.mem_map.mp hj'
      by_cases h : i0.id = r.itemId
      · obtain ⟨xq, hxq⟩ := hq r (List.mem_cons_self _ _)
        obtain ⟨xs, hxs, -⟩ := hst data (getItemById_mem hgi)
        refine ⟨max (xs - xq) 0, ?_, le_max_right _ _⟩
        simp only [if_pos h]
        rw [hxs, hxq]
        rfl
      · simp only [if_neg h]
        exact hst i0 hi0

/-- The task update at the end of `deductTaskItems` does not touch the
`items` table: on success the items are those written by the loop. -/
theorem deductTaskItems_ok_items {st : Store} {tid eid en : Str}
    {now : Nat} {items : List TaskItemReq} {stR : Store} {l : List Str}
    (hok : deductTaskItems st tid eid en now items = .ok (stR, l)) :
    stR.items = (deductTaskItemsLoop eid en now st items).items := by
  simp only [deductTaskItems] at hok
  split at hok
  · exact Except.noConfusion hok
  · split at hok
    · exact Except.noConfusion hok
    · injection hok with h1
      obtain ⟨h2, h3⟩ := Prod.mk.injEq .. |>.mp h1
      subst h2
      rfl

/-- C7 as amended.  The direct deduction flow (`deductItem`) clamps
every computed stock at zero (stock stays ≥ 0); the task-items flow
(`deductTaskItems`) writes `stock - required_qty` without clamping,
which can be negative. -/
theorem deduction_clamping (st : Store) (eid en : Str) (now : Nat)
    (reqs : List DeductReq) (st' : Store)
    (st₂ : Store) (tid eid₂ en₂ : Str) (now₂ : Nat)
    (iid : Str) (it : Item) (s q : ℤ) :
    (deductItem st eid en now reqs = .ok st' →
      (∀ i ∈ st.items, ∃ x : ℤ, i.stock = .num x ∧ 0 ≤ x) →
      (∀ r ∈ reqs, ∃ x : ℤ, r.qty = .num x) →
      ∀ i ∈ st'.items, ∃ x : ℤ, i.stock = .num x ∧ 0 ≤ x) ∧
    (st₂.items.filter (fun i => i.id = iid) = [it] →
      it.stock = .num s →
      ∀ stR l, deductTaskItems st₂ tid eid₂ en₂ now₂
          [⟨iid, .num q⟩] = .ok (stR, l) →
      ∀ i ∈ stR.items, i.id = iid → i.stock = .num (s - q)) := by
  constructor
  · intro hok hst hq
    exact deductItemLoop_nonneg eid en now reqs st st' hok hst hq
  · intro hit hS stR l hok
    have hloop : deductTaskItemsLoop eid₂ en₂ now₂ st₂
        [⟨iid, .num q⟩] =
        addHistoryEntry
          { st₂ with items := st₂.items.map (fun i =>
              if i.id = iid then
                { i with stock := jsub (match it.stock with | .num x => .num x | .nan => .num 0) (.num q) }
              else i) }
          eid₂ en₂ iid
          (if it.name ≠ [] then it.name else "Unknown Item".data)
          (.num q) deductS now₂ := by
      simp only [deductTaskItemsLoop]
      rw [hit]
    have hitems := deductTaskItems_ok_items hok
    rw [hloop] at hitems
    intro i hi hid
    rw [hitems] at hi
    have hi' : i ∈ st₂.items.map (fun i0 =>
        if i0.id = iid then
          { i0 with stock := jsub (match it.stock with | .num x => .num x | .nan => .num 0) (.num q) }
        else i0) := hi
    obtain ⟨i0, hi0, rfl⟩ := List.mem_map.mp hi'
    by_cases h : i0.id = iid
    · simp only [if_pos h]
      rw [hS]
      rfl
    · simp only [if_neg h] at hid
      exact absurd hid h

/-- C7 witness: a concrete `deductItem` run (stock 5, deduct 9) keeps
every stock non-negative, applied through the clamping theorem. -/
theorem deduction_clamping_witness :
    ∀ i ∈ c7res.items, ∃ x : ℤ, i.stock = .num x ∧ 0 ≤ x :=
  (deduction_clamping c7st2 "E".data "N".data 1 [⟨"I2".data, .num 9⟩]
      c7res c7st "T1".data "E1".data "N".data 3 "I1".data
      ⟨"I1".data, "X".data, .num 5⟩ 5 10).1 (by rfl)
    (by
      intro i hi
      have hi' : i = ⟨"I2".data, "X".data, .num 5⟩ := by
        simpa [c7st2] using hi
      subst hi'
      exact ⟨5, rfl, by decide⟩)
    (by
      intro r hr
      rw [List.mem_singleton] at hr
      subst hr
      exact ⟨9, rfl⟩)

/-! ## Task gate machinery -/

theorem canMarkTaskDone_iff {st : Store} {tid e : Str} {t : Task}
    (ht : singleTask st tid = some t) :
    canMarkTaskDone st tid e = .ok true ↔
      (e ∈ csvToArray t.checked_by ∧ ∃ hh ∈ st.history,
        hh.employee_id = e ∧ hh.action = deductS ∧
        t.assigned_at < hh.timestamp) := by
  simp only [canMarkTaskDone]
  rw [ht]
  constructor
  · intro h
    injection h with hb
    simpa only [Bool.and_eq_true, decide_eq_true_eq, List.any_eq_true]
      using hb
  · intro h
    refine congrArg Except.ok ?_
    simpa only [Bool.and_eq_true, decide_eq_true_eq, List.any_eq_true]
      using h

theorem singleTask_tid {st : Store} {tid : Str} {t : Task}
    (ht : singleTask st tid = some t) : t.task_id = tid := by
  have h := singleTask_eq_filter ht
  have hm : t ∈ st.tasks.filter (fun u => u.task_id = tid) :=
    h ▸ List.mem_cons_self t []
  simpa using (List.mem_filter.mp hm).2

/-- `singleTask` after the store update performed by `doneTask`. -/
theorem singleTask_update {st : Store} {tid : Str} {t : Task}
    (db : Option Str) (dn : Option Nat) (stt : Str)
    (ht : singleTask st tid = some t) :
    singleTask (doneTaskUpdate st tid db dn stt) tid =
      some (taskDoneMark t db dn stt) := by
  have hm := singleTask_map (fun u =>
      if u.task_id = tid then
        { u with done_by := db, done_at := dn, status := stt }
      else u)
    (fun u => by by_cases h : u.task_id = tid <;> simp [h]) ht
  simp only [doneTaskUpdate]
  rw [hm]
  simp [singleTask_tid ht, taskDoneMark]

/-- `singleTask` after the store update performed by
`updateTaskCheckStatus`. -/
theorem singleTask_update_check {st : Store} {tid : Str} {t : Task}
    (cb : Option Str) (ht : singleTask st tid = some t) :
    singleTask (checkTaskUpdate st tid cb) tid =
      some (taskCheckMark t cb) := by
  have hm := singleTask_map (fun u =>
      if u.task_id = tid then { u with checked_by := cb } else u)
    (fun u => by by_cases h : u.task_id = tid <;> simp [h]) ht
  simp only [checkTaskUpdate]
  rw [hm]
  simp [singleTask_tid ht, taskCheckMark]

/-- A gated, successful `doneTask` call, in closed form. -/
theorem doneTask_ok_build {st : Store} {tid e : Str} {t : Task}
    (now : Nat) (ht : singleTask st tid = some t)
    (hcm : canMarkTaskDone st tid e = .ok true) :
    doneTask st tid e now = .ok
      (doneTaskUpdate st tid (some (arrayToCsv (doneByAfter t e)))
        (some now) completedS,
       doneByAfter t e) := by
  simp only [doneTask]
  rw [hcm, ht]
  rfl

/-- Inversion of a successful `doneTask` call. -/
theorem doneTask_ok_inv {st : Store} {tid e : Str} {now : Nat}
    {st1 : Store} {l1 : List Str}
    (h1 : doneTask st tid e now = .ok (st1, l1)) :
    ∃ t, singleTask st tid = some t ∧
      canMarkTaskDone st tid e = .ok true ∧
      l1 = doneByAfter t e ∧
      st1 = doneTaskUpdate st tid (some (arrayToCsv l1)) (some now)
        completedS := by
  simp only [doneTask] at h1
  cases hcm : canMarkTaskDone st tid e with
  | error er =>
    rw [hcm] at h1
    exact Except.noConfusion h1
  | ok b =>
    cases b with
    | false =>
      rw [hcm] at h1
      exact Except.noConfusion h1
    | true =>
      rw [hcm] at h1
      have hcm2 := hcm
      simp only [canMarkTaskDone] at hcm2
      cases hst : singleTask st tid with
      | none =>
        rw [hst] at hcm2
        exact Except.noConfusion hcm2
      | some t =>
        rw [hst] at h1
        injection h1 with hp
        obtain ⟨h2, h3⟩ := Prod.mk.injEq .. |>.mp hp
        subst h3
        subst h2
        exact ⟨t, rfl, rfl, rfl, rfl⟩

theorem doneByAfter_wf {t : Task} {e : Str} (he : wfId e) :
    ∀ x ∈ doneByAfter t e, wfId x := by
  intro x hx
  simp only [doneByAfter] at hx
  by_cases hmem : e ∈ csvToArray t.done_by
  · rw [if_pos hmem] at hx
    exact csvToArray_wf x hx
  · rw [if_neg hmem] at hx
    rcases List.mem_append.mp hx with h | h
    · exact csvToArray_wf x h
    · rw [List.mem_singleton] at h
      subst h
      exact he

theorem mem_doneByAfter (t : Task) (e : Str) : e ∈ doneByAfter t e := by
  simp only [doneByAfter]
  by_cases hmem : e ∈ csvToArray t.done_by
  · rw [if_pos hmem]
    exact hmem
  · rw [if_neg hmem]
    exact List.mem_append.mpr (Or.inr (List.mem_singleton.mpr rfl))

/-! ## C5: the done gate -/

/-- C5.  With the task present, `doneTask` marks the task done for an
employee exactly when the employee is in `checked_by` and owns a
`deduct` history entry strictly after the task `assigned_at`; when
either condition fails it throws the gate error — and the gate check
being the first thing the function does, nothing has been written
(the embedding returns a store only on success, mirroring that no
write precedes the throw). -/
theorem doneTask_gate (st : Store) (tid e : Str) (now : Nat) (t : Task)
    (ht : singleTask st tid = some t) (he : wfId e) :
    ((e ∈ csvToArray t.checked_by ∧ ∃ hh ∈ st.history,
        hh.employee_id = e ∧ hh.action = deductS ∧
        t.assigned_at < hh.timestamp) →
      ∃ st' l, doneTask st tid e now = .ok (st', l) ∧
        e ∈ taskDoneBy st' tid) ∧
    (¬ (e ∈ csvToArray t.checked_by ∧ ∃ hh ∈ st.history,
        hh.employee_id = e ∧ hh.action = deductS ∧
        t.assigned_at < hh.timestamp) →
      doneTask st tid e now = .error .taskCannotBeDone) ∧
    (∀ st' l, doneTask st tid e now = .ok (st', l) →
      e ∈ csvToArray t.checked_by ∧ ∃ hh ∈ st.history,
        hh.employee_id = e ∧ hh.action = deductS ∧
        t.assigned_at < hh.timestamp) := by
  refine ⟨?_, ?_, ?_⟩
  · intro hc
    have hcm : canMarkTaskDone st tid e = .ok true :=
      (canMarkTaskDone_iff ht).mpr hc
    refine ⟨_, _, doneTask_ok_build now ht hcm, ?_⟩
    have hup := singleTask_update
      (some (arrayToCsv (doneByAfter t e))) (some now) completedS ht
    have hdb : taskDoneBy (doneTaskUpdate st tid
        (some (arrayToCsv (doneByAfter t e))) (some now) completedS)
        tid = doneByAfter t e := by
      simp only [taskDoneBy]
      rw [hup]
      exact csvToArray_arrayToCsv (doneByAfter_wf he)
    rw [hdb]
    exact mem_doneByAfter t e
  · intro hnc
    cases hdk : doneTask st tid e now with
    | ok p =>
      exfalso
      rcases p with ⟨st1, l1⟩
      obtain ⟨t2, hst2, hcm2, -, -⟩ := doneTask_ok_inv hdk
      rw [ht] at hst2
      injection hst2 with hte
      subst hte
      exact hnc ((canMarkTaskDone_iff ht).mp hcm2)
    | error er =>
      simp only [doneTask] at hdk
      cases hcm : canMarkTaskDone st tid e with
      | error e2 =>
        exfalso
        simp only [canMarkTaskDone] at hcm
        rw [ht] at hcm
        exact Except.noConfusion hcm
      | ok b =>
        cases b with
        | true =>
          rw [hcm] at hdk
          exact Except.noConfusion hdk
        | false =>
          rw [hcm] at hdk
          injection hdk with he2
          rw [← he2]
  · intro st' l hok
    obtain ⟨t2, hst2, hcm2, -, -⟩ := doneTask_ok_inv hok
    rw [ht] at hst2
    injection hst2 with hte
    subst hte
    exact (canMarkTaskDone_iff ht).mp hcm2

/-- C5 witness: employee E1 is checked on task T1 (assigned at 5) and
has a deduct entry at time 10, so `doneTask` succeeds and records E1
in `done_by`. -/
theorem doneTask_gate_witness :
    ∃ st' l, doneTask c5st "T1".data "E1".data 20 = .ok (st', l) ∧
      "E1".data ∈ taskDoneBy st' "T1".data :=
  (doneTask_gate c5st "T1".data "E1".data 20 c5task rfl (by decide)).1
    ⟨by decide, c5hist, by simp [c5st], by decide⟩

/-! ## C6: re-invoking doneTask -/

/-- C6 counterexample: for an employee already in `done_by` (first
completion at time 7), re-invoking `doneTask` at time 9 overwrites the
stored `done_at` with 9 — the stored task is not unchanged. -/
theorem doneTask_not_idempotent :
    (resStoreP (doneTask c6st "T1".data "E1".data 9)).map
        (fun s => taskDoneBy s "T1".data) = some ["E1".data] ∧
      (resStoreP (doneTask c6st "T1".data "E1".data 9)).map
        (fun s => taskDoneAt s "T1".data) = some (some 9) ∧
      taskDoneAt c6st "T1".data = some 7 ∧ (9 : Nat) ≠ 7 := by
  refine ⟨?_, ?_, ?_, ?_⟩
  · decide
  · decide
  · decide
  · decide

/-- C6 as amended.  Re-invoking `doneTask` for an employee already
marked done succeeds again and leaves the `done_by` set and the
`completed` status as they were, but it overwrites `done_at` with the
time of the second invocation. -/
theorem doneTask_repeat (st : Store) (tid e : Str) (n₁ n₂ : Nat)
    (st1 : Store) (l1 : List Str) (he : wfId e)
    (h1 : doneTask st tid e n₁ = .ok (st1, l1)) :
    ∃ st2 l2, doneTask st1 tid e n₂ = .ok (st2, l2) ∧ l2 = l1 ∧
      e ∈ taskDoneBy st1 tid ∧
      taskDoneBy st2 tid = taskDoneBy st1 tid ∧
      taskStatus st1 tid = some completedS ∧
      taskStatus st2 tid = some completedS ∧
      taskDoneAt st1 tid = some n₁ ∧
      taskDoneAt st2 tid = some n₂ := by
  obtain ⟨t, hst, hcm, hl1, hst1⟩ := doneTask_ok_inv h1
  have hwfl : ∀ x ∈ l1, wfId x := by
    rw [hl1]
    exact doneByAfter_wf he
  have hel1 : e ∈ l1 := by
    rw [hl1]
    exact mem_doneByAfter t e
  have hparse : csvToArray (some (arrayToCsv l1)) = l1 :=
    csvToArray_arrayToCsv hwfl
  have hup : singleTask st1 tid =
      some (taskDoneMark t (some (arrayToCsv l1)) (some n₁)
        completedS) := by
    rw [hst1]
    exact singleTask_update _ _ _ hst
  have hcond := (canMarkTaskDone_iff hst).mp hcm
  have hcm1 : canMarkTaskDone st1 tid e = .ok true := by
    apply (canMarkTaskDone_iff hup).mpr
    constructor
    · exact hcond.1
    · obtain ⟨hh, hmem, hprops⟩ := hcond.2
      refine ⟨hh, ?_, hprops⟩
      rw [hst1]
      exact hmem
  have hafter : doneByAfter (taskDoneMark t (some (arrayToCsv l1))
      (some n₁) completedS) e = l1 := by
    simp only [doneByAfter, taskDoneMark]
    rw [hparse, if_pos hel1]
  have hb2 := doneTask_ok_build n₂ hup hcm1
  rw [hafter] at hb2
  have hdb1 : taskDoneBy st1 tid = l1 := by
    simp only [taskDoneBy]
    rw [hup]
    exact hparse
  have hup2 :=
    singleTask_update (some (arrayToCsv l1)) (some n₂) completedS hup
  have hdb2 : taskDoneBy (doneTaskUpdate st1 tid
      (some (arrayToCsv l1)) (some n₂) completedS) tid = l1 := by
    simp only [taskDoneBy]
    rw [hup2]
    exact hparse
  refine ⟨_, _, hb2, rfl, hdb1 ▸ hel1, ?_, ?_, ?_, ?_, ?_⟩
  · rw [hdb1]
    exact hdb2
  · simp only [taskStatus]
    rw [hup]
    rfl
  · simp only [taskStatus]
    rw [hup2]
    rfl
  · simp only [taskDoneAt]
    rw [hup]
    rfl
  · simp only [taskDoneAt]
    rw [hup2]
    rfl

/-- C6 witness: after a first completion at time 20, a second
invocation at 21 keeps `done_by` and the status but moves `done_at`
to 21. -/
theorem doneTask_repeat_witness :
    ∃ st2 l2, doneTask c6st1 "T1".data "E1".data 21 = .ok (st2, l2) ∧
      l2 = ["E1".data] ∧
      "E1".data ∈ taskDoneBy c6st1 "T1".data ∧
      taskDoneBy st2 "T1".data = taskDoneBy c6st1 "T1".data ∧
      taskStatus c6st1 "T1".data = some completedS ∧
      taskStatus st2 "T1".data = some completedS ∧
      taskDoneAt c6st1 "T1".data = some 20 ∧
      taskDoneAt st2 "T1".data = some 21 :=
  doneTask_repeat c6st0 "T1".data "E1".data 20 21 c6st1 ["E1".data]
    (by decide) (by rfl)

/-! ## C9: membership sets under check/done operations -/

theorem nodup_push {l : List Str} (e : Str) (h : l.Nodup) :
    (if e ∈ l then l else l ++ [e]).Nodup := by
  by_cases hmem : e ∈ l
  · rw [if_pos hmem]
    exact h
  · rw [if_neg hmem]
    refine List.nodup_append.mpr ⟨h, List.nodup_singleton e, ?_⟩
    intro a ha hae
    rw [List.mem_singleton] at hae
    subst hae
    exact hmem ha

theorem subset_push (l : List Str) (e : Str) :
    ∀ x ∈ l, x ∈ (if e ∈ l then l else l ++ [e]) := by
  intro x hx
  by_cases hmem : e ∈ l
  · rw [if_pos hmem]
    exact hx
  · rw [if_neg hmem]
    exact List.mem_append.mpr (Or.inl hx)

theorem checkedByAfter_wf {t : Task} {e : Str} (he : wfId e) :
    ∀ x ∈ checkedByAfter t e, wfId x := by
  intro x hx
  simp only [checkedByAfter] at hx
  by_cases hmem : e ∈ csvToArray t.checked_by
  · rw [if_pos hmem] at hx
    exact csvToArray_wf x hx
  · rw [if_neg hmem] at hx
    rcases List.mem_append.mp hx with h | h
    · exact csvToArray_wf x h
    · rw [List.mem_singleton] at h
      subst h
      exact he

/-- Inversion of a successful `updateTaskCheckStatus` call. -/
theorem updateTaskCheckStatus_inv {st : Store} {tid e : Str}
    {st' : Store} (h : updateTaskCheckStatus st tid e = .ok st') :
    ∃ t, singleTask st tid = some t ∧
      st' = checkTaskUpdate st tid
        (some (arrayToCsv (checkedByAfter t e))) := by
  simp only [updateTaskCheckStatus] at h
  cases hst : singleTask st tid with
  | none =>
    rw [hst] at h
    exact Except.noConfusion h
  | some t =>
    rw [hst] at h
    injection h with h2
    subst h2
    exact ⟨t, rfl, rfl⟩

/-- Reflexivity of the grows-only relation. -/
theorem forall₂_taskRel_refl (l : List Task) : List.Forall₂ taskRel l l :=
  List.forall₂_same.mpr
    (fun _t _ => ⟨rfl, fun _x hx => hx, fun _x hx => hx⟩)

/-- Transitivity of the grows-only relation along a trace. -/
theorem forall₂_taskRel_trans {l1 l2 l3 : List Task}
    (h12 : List.Forall₂ taskRel l1 l2)
    (h23 : List.Forall₂ taskRel l2 l3) :
    List.Forall₂ taskRel l1 l3 := by
  induction h12 generalizing l3 with
  | nil =>
    cases h23
    exact List.Forall₂.nil
  | cons hab h ih =>
    cases h23 with
    | cons hbc h2 =>
      exact List.Forall₂.cons
        ⟨hab.1.trans hbc.1, fun x hx => hbc.2.1 x (hab.2.1 x hx),
         fun x hx => hbc.2.2 x (hab.2.2 x hx)⟩ (ih h2)

/-- A single-task update preserves the no-duplicates invariant and
only grows the membership sets. -/
theorem update_preserves (st : Store) (tid : Str) (t : Task)
    (f : Task → Task) (hst : singleTask st tid = some t)
    (hf_id : ∀ u, (f u).task_id = u.task_id)
    (hf_nomatch : ∀ u, ¬ u.task_id = tid → f u = u)
    (hchecked : ∀ x ∈ csvToArray t.checked_by,
      x ∈ csvToArray (f t).checked_by)
    (hdone : ∀ x ∈ csvToArray t.done_by, x ∈ csvToArray (f t).done_by)
    (hnodupc : (csvToArray t.checked_by).Nodup →
      (csvToArray (f t).checked_by).Nodup)
    (hnodupd : (csvToArray t.done_by).Nodup →
      (csvToArray (f t).done_by).Nodup)
    (hinv : TasksInv st) :
    TasksInv { st with tasks := st.tasks.map f } ∧
    List.Forall₂ taskRel st.tasks (st.tasks.map f) := by
  constructor
  · intro u hu
    obtain ⟨u0, hu0, rfl⟩ := List.mem_map.mp hu
    by_cases h : u0.task_id = tid
    · have heq : u0 = t :=
        eq_of_filter_singleton (singleTask_eq_filter hst) hu0
          (by simpa using h)
      subst heq
      exact ⟨hnodupc (hinv u0 hu0).1, hnodupd (hinv u0 hu0).2⟩
    · rw [hf_nomatch u0 h]
      exact hinv u0 hu0
  · rw [List.forall₂_map_right_iff, List.forall₂_same]
    intro u hu
    by_cases h : u.task_id = tid
    · have heq : u = t :=
        eq_of_filter_singleton (singleTask_eq_filter hst) hu
          (by simpa using h)
      subst heq
      exact ⟨(hf_id u).symm, hchecked, hdone⟩
    · rw [hf_nomatch u h]
      exact ⟨rfl, fun x hx => hx, fun x hx => hx⟩

/-- One check/done operation preserves the invariant and only grows
the membership sets. -/
theorem applyTaskOp_step (st : Store) (op : TaskOp) (hw : opWf op)
    (hinv : TasksInv st) :
    TasksInv (applyTaskOp st op) ∧
    List.Forall₂ taskRel st.tasks (applyTaskOp st op).tasks := by
  cases op with
  | check tid e =>
    simp only [applyTaskOp]
    cases hu : updateTaskCheckStatus st tid e with
    | error er => exact ⟨hinv, forall₂_taskRel_refl st.tasks⟩
    | ok st' =>
      obtain ⟨t, hst, rfl⟩ := updateTaskCheckStatus_inv hu
      have htid : t.task_id = tid := singleTask_tid hst
      have hparse : csvToArray (some (arrayToCsv (checkedByAfter t e))) =
          checkedByAfter t e :=
        csvToArray_arrayToCsv (checkedByAfter_wf hw)
      refine update_preserves st tid t _ hst
        (fun u => by by_cases h : u.task_id = tid <;> simp [h])
        (fun u h => if_neg h) ?_ ?_ ?_ ?_ hinv
      · intro x hx
        rw [if_pos htid]
        show x ∈ csvToArray (some (arrayToCsv (checkedByAfter t e)))
        rw [hparse]
        simp only [checkedByAfter]
        exact subset_push _ e x hx
      · intro x hx
        rw [if_pos htid]
        exact hx
      · intro hn
        rw [if_pos htid]
        show (csvToArray (some (arrayToCsv (checkedByAfter t e)))).Nodup
        rw [hparse]
        simp only [checkedByAfter]
        exact nodup_push e hn
      · intro hn
        rw [if_pos htid]
        exact hn
  | markDone tid e n =>
    simp only [applyTaskOp]
    cases hd : doneTask st tid e n with
    | error er => exact ⟨hinv, forall₂_taskRel_refl st.tasks⟩
    | ok p =>
      rcases p with ⟨st', l'⟩
      obtain ⟨t, hst, -, hl, rfl⟩ := doneTask_ok_inv hd
      have htid : t.task_id = tid := singleTask_tid hst
      have hparse : csvToArray (some (arrayToCsv l')) = l' := by
        rw [hl]
        exact csvToArray_arrayToCsv (doneByAfter_wf hw)
      refine update_preserves st tid t _ hst
        (fun u => by by_cases h : u.task_id = tid <;> simp [h])
        (fun u h => if_neg h) ?_ ?_ ?_ ?_ hinv
      · intro x hx
        rw [if_pos htid]
        exact hx
      · intro x hx
        rw [if_pos htid]
        show x ∈ csvToArray (some (arrayToCsv l'))
        rw [hparse, hl]
        simp only [doneByAfter]
        exact subset_push _ e x hx
      · intro hn
        rw [if_pos htid]
        exact hn
      · intro hn
        rw [if_pos htid]
        show (csvToArray (some (arrayToCsv l'))).Nodup
        rw [hparse, hl]
        simp only [doneByAfter]
        exact nodup_push e hn

/-- C9.  Marking a task checked or done appends the employee id to the
respective CSV membership set only when it is absent: across any
sequence of check/done operations (with well-formed employee ids, as
the application generates them), the parsed `checked_by` and `done_by`
sets stay duplicate-free and ids already present are never removed. -/
theorem taskMembership_invariant (st : Store) (ops : List TaskOp)
    (hw : ∀ op ∈ ops, opWf op) (hinv : TasksInv st) :
    TasksInv (applyTaskOps st ops) ∧
    List.Forall₂ taskRel st.tasks (applyTaskOps st ops).tasks := by
  induction ops generalizing st with
  | nil => exact ⟨hinv, forall₂_taskRel_refl st.tasks⟩
  | cons op rest ih =>
    obtain ⟨hinv1, hrel1⟩ :=
      applyTaskOp_step st op (hw op (List.mem_cons_self _ _)) hinv
    obtain ⟨hinv2, hrel2⟩ := ih (applyTaskOp st op)
      (fun o ho => hw o (List.mem_cons_of_mem _ ho)) hinv1
    exact ⟨hinv2, forall₂_taskRel_trans hrel1 hrel2⟩

/-- C9 witness: a concrete trace (check, duplicate check, done)
starting from duplicate-free sets stays duplicate-free and
grows-only. -/
theorem taskMembership_invariant_witness :
    TasksInv (applyTaskOps c9st c9ops) ∧
    List.Forall₂ taskRel c9st.tasks (applyTaskOps c9st c9ops).tasks :=
  taskMembership_invariant c9st c9ops
    (by
      intro op hop
      simp only [c9ops, List.mem_cons, List.mem_singleton,
        List.not_mem_nil, or_false] at hop
      rcases hop with rfl | rfl | rfl <;> exact (by decide))
    (by decide)

end FS
